import Mathlib

/-!
Verification of the chess-move-intelligence core of the Chess Academy feature
(`backend/features/chess_academy/router.py`).

The external rules engine (the `chess` library) is out of scope per the
specification: it is modelled as an abstract interface (`Engine`), an
assumption-free record of the operations the router consumes.  All router
functions are shallowly embedded as Lean functions parametric in that
interface.  Python floats appearing in the search (`math.inf` window bounds,
integer-valued evaluations) are modelled by `XScore`, the integers extended
with two infinities.  Randomness (`random.shuffle`, `random.random()`
comparisons) is modelled by explicit parameters (a shuffled permutation, and
booleans for the draws), quantified over in the theorems.
-/

/-- Piece kinds of the rules engine (`chess.PAWN` … `chess.KING`). -/
inductive PieceType where
  | pawn
  | knight
  | bishop
  | rook
  | queen
  | king
deriving DecidableEq, Repr

/-- A piece as the rules engine reports it: `chess.Piece(piece_type, color)`.
`color = true` is White (`chess.WHITE`), `false` is Black. -/
structure Piece where
  pieceType : PieceType
  color : Bool
deriving DecidableEq, Repr

/-- A move value (`chess.Move`): from-square, to-square, optional promotion.
Squares use the rules engine's numbering: `a1 = 0`, …, `h8 = 63`,
`square = rank * 8 + file`. -/
structure UciMove where
  fromSquare : Nat
  toSquare : Nat
  promotion : Option PieceType
deriving DecidableEq, Repr

/-- Scores as the Python search manipulates them: `float` values that are
either integers or `±math.inf`. -/
inductive XScore where
  | negInf
  | fin (v : Int)
  | posInf
deriving DecidableEq, Repr

namespace XScore

/-- The `<=` order on scores (standard float comparison on `-inf`, finite
values, `+inf`). -/
def le : XScore → XScore → Bool
  | negInf, _ => true
  | fin _, negInf => false
  | fin a, fin b => decide (a ≤ b)
  | fin _, posInf => true
  | posInf, posInf => true
  | posInf, _ => false

/-- Strict comparison, `a < b` (what Python's `>` tests, with the arguments
swapped). -/
def lt (a b : XScore) : Bool := !(le b a)

/-- Float negation: `-(-inf) = +inf`, etc. -/
def neg : XScore → XScore
  | negInf => posInf
  | fin v => fin (-v)
  | posInf => negInf

/-- Binary maximum via the strict comparison (`if a < b then b else a`),
matching the accumulation pattern `if score > max_eval: max_eval = score`. -/
def xmax (a b : XScore) : XScore := if a.lt b then b else a

theorem le_refl (a : XScore) : le a a = true := by
  cases a <;> simp [le]

theorem le_trans {a b c : XScore} (h1 : le a b = true) (h2 : le b c = true) :
    le a c = true := by
  cases a <;> cases b <;> cases c <;> simp_all [le] <;> omega

theorem le_antisymm {a b : XScore} (h1 : le a b = true) (h2 : le b a = true) :
    a = b := by
  cases a <;> cases b <;> simp_all [le] <;> omega

theorem le_total (a b : XScore) : le a b = true ∨ le b a = true := by
  cases a <;> cases b <;> simp [le] <;> omega

theorem lt_iff_not_le {a b : XScore} : lt a b = true ↔ ¬ (le b a = true) := by
  simp [lt]

theorem le_of_lt {a b : XScore} (h : lt a b = true) : le a b = true := by
  rcases le_total a b with h' | h'
  · exact h'
  · exact absurd h' (lt_iff_not_le.mp h)

theorem le_of_not_lt {a b : XScore} (h : ¬ (lt a b = true)) : le b a = true := by
  simpa [lt] using h

theorem not_lt_of_le {a b : XScore} (h : le b a = true) : ¬ (lt a b = true) := by
  intro hc
  exact (lt_iff_not_le.mp hc) h

theorem lt_of_le_of_lt {a b c : XScore} (h1 : le a b = true) (h2 : lt b c = true) :
    lt a c = true := by
  refine lt_iff_not_le.mpr (fun hc => ?_)
  exact (lt_iff_not_le.mp h2) (le_trans hc h1)

theorem lt_of_lt_of_le {a b c : XScore} (h1 : lt a b = true) (h2 : le b c = true) :
    lt a c = true := by
  refine lt_iff_not_le.mpr (fun hc => ?_)
  exact (lt_iff_not_le.mp h1) (le_trans h2 hc)

theorem lt_irrefl (a : XScore) : ¬ (lt a a = true) := not_lt_of_le (le_refl a)

theorem neg_neg (a : XScore) : a.neg.neg = a := by
  cases a <;> simp [neg]

theorem neg_le_neg_iff {a b : XScore} : le a.neg b.neg = true ↔ le b a = true := by
  cases a <;> cases b <;> simp [le, neg] <;> omega

theorem neg_lt_neg_iff {a b : XScore} : lt a.neg b.neg = true ↔ lt b a = true := by
  cases a <;> cases b <;> simp [lt, le, neg] <;> omega

theorem negInf_le (a : XScore) : le negInf a = true := by cases a <;> simp [le]

theorem le_posInf (a : XScore) : le a posInf = true := by cases a <;> simp [le]

theorem negInf_lt_iff {a : XScore} : lt negInf a = true ↔ a ≠ negInf := by
  cases a <;> simp [lt, le]

theorem lt_posInf_iff {a : XScore} : lt a posInf = true ↔ a ≠ posInf := by
  cases a <;> simp [lt, le]

theorem neg_eq_negInf_iff {a : XScore} : a.neg = negInf ↔ a = posInf := by
  cases a <;> simp [neg]

theorem neg_eq_posInf_iff {a : XScore} : a.neg = posInf ↔ a = negInf := by
  cases a <;> simp [neg]

theorem le_xmax_left (a b : XScore) : le a (xmax a b) = true := by
  by_cases h : lt a b = true
  · simp [xmax, h, le_of_lt h]
  · simp [xmax, h, le_refl]

theorem le_xmax_right (a b : XScore) : le b (xmax a b) = true := by
  by_cases h : lt a b = true
  · simp [xmax, h, le_refl]
  · simp [xmax, h, le_of_not_lt h]

theorem xmax_le {a b c : XScore} (h1 : le a c = true) (h2 : le b c = true) :
    le (xmax a b) c = true := by
  by_cases h : lt a b = true <;> simp [xmax, h, h1, h2]

theorem le_xmax_iff {a b c : XScore} :
    le c (xmax a b) = true ↔ le c a = true ∨ le c b = true := by
  constructor
  · intro h
    by_cases hab : lt a b = true
    · right; simpa [xmax, hab] using h
    · left; simpa [xmax, hab] using h
  · rintro (h | h)
    · exact le_trans h (le_xmax_left a b)
    · exact le_trans h (le_xmax_right a b)

theorem xmax_eq_left {a b : XScore} (h : le b a = true) : xmax a b = a := by
  simp [xmax, not_lt_of_le h]

theorem xmax_eq_right {a b : XScore} (h : le a b = true) : xmax a b = b := by
  by_cases hlt : lt a b = true
  · simp [xmax, hlt]
  · simp [xmax, hlt, le_antisymm h (le_of_not_lt hlt)]

theorem xmax_cases (a b : XScore) : xmax a b = a ∨ xmax a b = b := by
  by_cases h : lt a b = true <;> simp [xmax, h]

theorem xmax_assoc (a b c : XScore) : xmax (xmax a b) c = xmax a (xmax b c) := by
  apply le_antisymm
  · refine xmax_le (xmax_le ?_ ?_) ?_
    · exact le_xmax_left _ _
    · exact le_trans (le_xmax_left b c) (le_xmax_right _ _)
    · exact le_trans (le_xmax_right b c) (le_xmax_right _ _)
  · refine xmax_le ?_ (xmax_le ?_ ?_)
    · exact le_trans (le_xmax_left a b) (le_xmax_left _ _)
    · exact le_trans (le_xmax_right a b) (le_xmax_left _ _)
    · exact le_xmax_right _ _

theorem xmax_le_xmax {a b c d : XScore} (h1 : le a c = true) (h2 : le b d = true) :
    le (xmax a b) (xmax c d) = true :=
  xmax_le (le_trans h1 (le_xmax_left c d)) (le_trans h2 (le_xmax_right c d))

theorem xmax_ne_posInf {a b : XScore} (ha : a ≠ posInf) (hb : b ≠ posInf) :
    xmax a b ≠ posInf := by
  rcases xmax_cases a b with h | h <;> rw [h] <;> assumption

end XScore

/-- `CHECKMATE_SCORE = 100_000`. -/
def CHECKMATE_SCORE : Int := 100000

/-- `PIECE_VALUES` as the insertion-ordered association list the Python dict
iterates over. -/
def PIECE_VALUES_LIST : List (PieceType × Int) :=
  [(.pawn, 100), (.knight, 320), (.bishop, 330), (.rook, 500), (.queen, 900), (.king, 20000)]

/-- `PIECE_VALUES.get(piece_type, 0)` as a total function. -/
def PIECE_VALUES : PieceType → Int
  | .pawn => 100
  | .knight => 320
  | .bishop => 330
  | .rook => 500
  | .queen => 900
  | .king => 20000

def PAWN_TABLE : List Int :=
  [0, 0, 0, 0, 0, 0, 0, 0,
   50, 50, 50, 50, 50, 50, 50, 50,
   10, 10, 20, 30, 30, 20, 10, 10,
   5, 5, 10, 25, 25, 10, 5, 5,
   0, 0, 0, 20, 20, 0, 0, 0,
   5, -5, -10, 0, 0, -10, -5, 5,
   5, 10, 10, -20, -20, 10, 10, 5,
   0, 0, 0, 0, 0, 0, 0, 0]

def KNIGHT_TABLE : List Int :=
  [-50, -40, -30, -30, -30, -30, -40, -50,
   -40, -20, 0, 0, 0, 0, -20, -40,
   -30, 0, 10, 15, 15, 10, 0, -30,
   -30, 5, 15, 20, 20, 15, 5, -30,
   -30, 0, 15, 20, 20, 15, 0, -30,
   -30, 5, 10, 15, 15, 10, 5, -30,
   -40, -20, 0, 5, 5, 0, -20, -40,
   -50, -40, -30, -30, -30, -30, -40, -50]

def BISHOP_TABLE : List Int :=
  [-20, -10, -10, -10, -10, -10, -10, -20,
   -10, 5, 0, 0, 0, 0, 5, -10,
   -10, 10, 10, 10, 10, 10, 10, -10,
   -10, 0, 10, 10, 10, 10, 0, -10,
   -10, 5, 5, 10, 10, 5, 5, -10,
   -10, 0, 5, 10, 10, 5, 0, -10,
   -10, 0, 0, 0, 0, 0, 0, -10,
   -20, -10, -10, -10, -10, -10, -10, -20]

def ROOK_TABLE : List Int :=
  [0, 0, 5, 10, 10, 5, 0, 0,
   -5, 0, 0, 0, 0, 0, 0, -5,
   -5, 0, 0, 0, 0, 0, 0, -5,
   -5, 0, 0, 0, 0, 0, 0, -5,
   -5, 0, 0, 0, 0, 0, 0, -5,
   -5, 0, 0, 0, 0, 0, 0, -5,
   5, 10, 10, 10, 10, 10, 10, 5,
   0, 0, 0, 0, 0, 0, 0, 0]

def QUEEN_TABLE : List Int :=
  [-20, -10, -10, -5, -5, -10, -10, -20,
   -10, 0, 0, 0, 0, 0, 0, -10,
   -10, 0, 5, 5, 5, 5, 0, -10,
   -5, 0, 5, 5, 5, 5, 0, -5,
   0, 0, 5, 5, 5, 5, 0, -5,
   -10, 5, 5, 5, 5, 5, 0, -10,
   -10, 0, 5, 0, 0, 0, 0, -10,
   -20, -10, -10, -5, -5, -10, -10, -20]

def KING_TABLE_MID : List Int :=
  [20, 30, 10, 0, 0, 10, 30, 20,
   20, 20, 0, 0, 0, 0, 20, 20,
   -10, -20, -20, -20, -20, -20, -20, -10,
   -20, -30, -30, -40, -40, -30, -30, -20,
   -30, -40, -40, -50, -50, -40, -40, -30,
   -30, -40, -40, -50, -50, -40, -40, -30,
   -30, -40, -40, -50, -50, -40, -40, -30,
   -30, -40, -40, -50, -50, -40, -40, -30]

def KING_TABLE_END : List Int :=
  [-50, -40, -30, -20, -20, -30, -40, -50,
   -30, -20, -10, 0, 0, -10, -20, -30,
   -30, -10, 20, 30, 30, 20, -10, -30,
   -30, -10, 30, 40, 40, 30, -10, -30,
   -30, -10, 30, 40, 40, 30, -10, -30,
   -30, -10, 20, 30, 30, 20, -10, -30,
   -30, -30, 0, 0, 0, 0, -30, -30,
   -50, -30, -30, -30, -30, -30, -30, -50]

/-- `TABLE_LOOKUP`: maps generic piece types to their table, absent for the
king (handled separately with the phase tables). -/
def TABLE_LOOKUP : PieceType → Option (List Int)
  | .pawn => some PAWN_TABLE
  | .knight => some KNIGHT_TABLE
  | .bishop => some BISHOP_TABLE
  | .rook => some ROOK_TABLE
  | .queen => some QUEEN_TABLE
  | .king => none

/-- `CENTER_SQUARES = {d4, e4, d5, e5}` as square numbers
(`d4 = 27`, `e4 = 28`, `d5 = 35`, `e5 = 36`). -/
def CENTER_SQUARES_LIST : List Nat := [27, 28, 35, 36]

/-- `chess.square_name(square)`: file letter followed by rank digit. -/
def squareName (sq : Nat) : String :=
  String.mk [Char.ofNat (97 + sq % 8), Char.ofNat (49 + sq / 8)]

/-- The abstract rules-engine interface (the subset of the `chess` library the
router consumes; spec §6).  `Bool` colors: `true` = White.  Squares are `Nat`
indices `0 … 63`.  `push` is the pure counterpart of `board.push`: it returns
the position after the move, and the `board.pop()` of the source is modelled
either by simply keeping the parent value (pure embeddings) or by an explicit
stack (`EngState`, for the frame-effect claim). -/
structure Engine (B : Type) where
  legalMoves : B → List UciMove
  push : B → UciMove → B
  turn : B → Bool
  isGameOver : B → Bool
  isCheckmate : B → Bool
  isStalemate : B → Bool
  isInsufficientMaterial : B → Bool
  isInCheck : B → Bool → Bool
  isAttackedBy : B → Bool → Nat → Bool
  pieceAt : B → Nat → Option Piece
  pieces : B → PieceType → Bool → List Nat
  hasKingsideCastlingRights : B → Bool → Bool
  hasQueensideCastlingRights : B → Bool → Bool
  isCapture : B → UciMove → Bool
  givesCheck : B → UciMove → Bool
  isCastling : B → UciMove → Bool
  fullmoveNumber : B → Nat

/-- `_mirror_square_for_black`:
`chess.square(square_file(square), 7 - square_rank(square))`. -/
def mirrorSquareForBlack (square : Nat) : Nat :=
  square % 8 + 8 * (7 - square / 8)

/-- `_piece_square_value(piece, square, endgame)`. -/
def pieceSquareValue (piece : Piece) (square : Nat) (endgame : Bool) : Int :=
  match TABLE_LOOKUP piece.pieceType with
  | none =>
    if piece.pieceType = .king then
      (if endgame then KING_TABLE_END else KING_TABLE_MID).getD square 0
    else 0
  | some table =>
    if piece.color then table.getD square 0
    else - table.getD (mirrorSquareForBlack square) 0

/-- The game-phase test of `_evaluate_board`: endgame iff total minor pieces
`≤ 4` and no queens remain. -/
def isEndgame {B : Type} (e : Engine B) (b : B) : Bool :=
  decide ((e.pieces b .bishop true).length + (e.pieces b .knight true).length
      + (e.pieces b .bishop false).length + (e.pieces b .knight false).length ≤ 4)
    && decide ((e.pieces b .queen true).length + (e.pieces b .queen false).length = 0)

/-- `_evaluate_board(board)`.  The accumulator triple is
(white_material, black_material, positional_score). -/
def evaluateBoard {B : Type} (e : Engine B) (b : B) : Int :=
  if e.isCheckmate b then - CHECKMATE_SCORE
  else if e.isStalemate b || e.isInsufficientMaterial b then 0
  else
    let endgame := isEndgame e b
    let acc := PIECE_VALUES_LIST.foldl
      (fun (acc : Int × Int × Int) pv =>
        let wps := e.pieces b pv.1 true
        let bps := e.pieces b pv.1 false
        (acc.1 + pv.2 * wps.length,
         acc.2.1 + pv.2 * bps.length,
         bps.foldl (fun s sq => s + pieceSquareValue ⟨pv.1, false⟩ sq endgame)
           (wps.foldl (fun s sq => s + pieceSquareValue ⟨pv.1, true⟩ sq endgame) acc.2.2)))
      (0, 0, 0)
    let materialScore := acc.1 - acc.2.1
    let centerControl := CENTER_SQUARES_LIST.foldl
      (fun c sq =>
        match e.pieceAt b sq with
        | none => c
        | some piece => if piece.color then c + 15 else c - 15) 0
    let mobilityBonus : Int := 5 * (e.legalMoves b).length
    let kingSafety : Int :=
      (if e.hasKingsideCastlingRights b true || e.hasQueensideCastlingRights b true then 30 else 0)
      + (if e.hasKingsideCastlingRights b false || e.hasQueensideCastlingRights b false then -30 else 0)
    let bishopPairBonus : Int := 35 *
      ((if 2 ≤ (e.pieces b .bishop true).length then 1 else 0)
        - (if 2 ≤ (e.pieces b .bishop false).length then 1 else 0))
    let scoreFromWhitePerspective :=
      materialScore + acc.2.2 + centerControl + kingSafety + bishopPairBonus
    if e.turn b then scoreFromWhitePerspective + mobilityBonus
    else - scoreFromWhitePerspective + mobilityBonus

/-- `_move_order_score(board, move)`. -/
def moveOrderScore {B : Type} (e : Engine B) (b : B) (move : UciMove) : Int :=
  let score : Int := 0
  let score :=
    if e.isCapture b move then
      match e.pieceAt b move.toSquare with
      | some captured => score + 10 * PIECE_VALUES captured.pieceType
      | none => score
    else score
  let score := if e.givesCheck b move then score + 80 else score
  let score := if e.isCastling b move then score + 40 else score
  let score := if squareName move.toSquare ∈ ["d4", "e4", "d5", "e5"] then score + 25 else score
  score

/-- `sorted(board.legal_moves, key=..., reverse=True)`: a stable descending
sort by move-order score. -/
def orderedMoves {B : Type} (e : Engine B) (b : B) : List UciMove :=
  (e.legalMoves b).mergeSort (fun m1 m2 => decide (moveOrderScore e b m2 ≤ moveOrderScore e b m1))

/-- Evaluation as the search sees it: a finite score. -/
def evalX {B : Type} (e : Engine B) (b : B) : XScore := .fin (evaluateBoard e b)

/-- The move loop of `_negamax` for one node, parametric in the function `f`
used at child positions (`f` will be the depth-decremented search).  Mirrors
the source exactly: update `max_eval`, raise `alpha`, cut off once
`alpha >= beta` (returning `max_eval`). -/
def abLoopF {B : Type} (e : Engine B) (f : B → XScore → XScore → XScore) (b : B) :
    List UciMove → XScore → XScore → XScore → XScore
  | [], _, _, maxE => maxE
  | m :: rest, alpha, beta, maxE =>
    let s := (f (e.push b m) beta.neg alpha.neg).neg
    let maxE' := if maxE.lt s then s else maxE
    let alpha' := if alpha.lt maxE' then maxE' else alpha
    if beta.le alpha' then maxE' else abLoopF e f b rest alpha' beta maxE'

/-- `_negamax(board, depth, alpha, beta)`. -/
def negamax {B : Type} (e : Engine B) : Nat → B → XScore → XScore → XScore
  | 0, b, _, _ => evalX e b
  | d + 1, b, alpha, beta =>
    if e.isGameOver b then evalX e b
    else abLoopF e (fun b' a' b'' => negamax e d b' a' b'') b (orderedMoves e b) alpha beta .negInf

/-- The move loop of the unpruned full-width reference search: fold the
maximum of the negated child values, no window, no cutoff. -/
def fullLoopF {B : Type} (e : Engine B) (g : B → XScore) (b : B) :
    List UciMove → XScore → XScore
  | [], acc => acc
  | m :: rest, acc => fullLoopF e g b rest (acc.xmax (g (e.push b m)).neg)

/-- Unpruned full-width negamax to the same depth over the same move list:
`_negamax` with the alpha-beta window and the cutoff removed. -/
def negamaxFull {B : Type} (e : Engine B) : Nat → B → XScore
  | 0, b => evalX e b
  | d + 1, b =>
    if e.isGameOver b then evalX e b
    else fullLoopF e (fun b' => negamaxFull e d b') b (orderedMoves e b) .negInf

/-- The root loop of `_find_best_move`: track `(alpha, best_move, best_score)`
over the ordered moves; `beta` is `+inf` throughout and there is no cutoff. -/
def rootLoop {B : Type} (e : Engine B) (d : Nat) (b : B) :
    List UciMove → XScore → Option UciMove → XScore → Option (UciMove × XScore)
  | [], _, bm, bs =>
    match bm with
    | none => none
    | some m => some (m, bs)
  | m :: rest, alpha, bm, bs =>
    let s := (negamax e d (e.push b m) XScore.negInf alpha.neg).neg
    let keep := bs.lt s || bm.isNone
    let bm' := if keep then some m else bm
    let bs' := if keep then s else bs
    let alpha' := if alpha.lt s then s else alpha
    rootLoop e d b rest alpha' bm' bs'

/-- `_find_best_move(board, depth)`: `none` models the
`HTTPException("No legal moves available…")` raise. -/
def findBestMove {B : Type} (e : Engine B) (b : B) (depth : Nat) :
    Option (UciMove × XScore) :=
  rootLoop e (depth - 1) b (orderedMoves e b) XScore.negInf none XScore.negInf

/-- The score of the unpruned full-width search from the root: the maximum
over the same ordered move list of the negated unpruned child values. -/
def fullRootScore {B : Type} (e : Engine B) (b : B) (depth : Nat) : XScore :=
  fullLoopF e (fun b' => negamaxFull e (depth - 1) b') b (orderedMoves e b) .negInf

/-- Engine state as the in-place mutating source sees it: the current board
plus the stack of saved parent boards that `board.pop()` restores. -/
def EngState (B : Type) : Type := B × List B

/-- `board.push(move)` on the stateful board. -/
def pushS {B : Type} (e : Engine B) (st : EngState B) (m : UciMove) : EngState B :=
  (e.push st.1 m, st.1 :: st.2)

/-- `board.pop()` on the stateful board (never called on an empty stack by the
embedded code). -/
def popS {B : Type} (st : EngState B) : EngState B :=
  match st.2 with
  | [] => st
  | parent :: rest => (parent, rest)

/-- `board.is_check()`: is the side to move in check. -/
def isCheckB {B : Type} (e : Engine B) (b : B) : Bool := e.isInCheck b (e.turn b)

/-- `_is_move_safe(board, move)` with the push/pop state made explicit; the
`try`/`finally` always pops before returning. -/
def isMoveSafeS {B : Type} (e : Engine B) (st : EngState B) (m : UciMove) :
    Bool × EngState B :=
  let st1 := pushS e st m
  let res :=
    if isCheckB e st1.1 then false
    else !(e.isAttackedBy st1.1 (e.turn st1.1) m.toSquare)
  (res, popS st1)

/-- `_is_move_safe` as the pure predicate of the position and the move. -/
def isMoveSafe {B : Type} (e : Engine B) (b : B) (m : UciMove) : Bool :=
  (isMoveSafeS e (b, []) m).1

/-- `_negamax` with the push/pop state threaded explicitly (loop part). -/
def abLoopFS {B : Type} (e : Engine B)
    (f : EngState B → XScore → XScore → XScore × EngState B) :
    List UciMove → EngState B → XScore → XScore → XScore → XScore × EngState B
  | [], st, _, _, maxE => (maxE, st)
  | m :: rest, st, alpha, beta, maxE =>
    let st1 := pushS e st m
    let r := f st1 beta.neg alpha.neg
    let s := r.1.neg
    let st2 := popS r.2
    let maxE' := if maxE.lt s then s else maxE
    let alpha' := if alpha.lt maxE' then maxE' else alpha
    if beta.le alpha' then (maxE', st2) else abLoopFS e f rest st2 alpha' beta maxE'

/-- `_negamax` with the push/pop state threaded explicitly. -/
def negamaxS {B : Type} (e : Engine B) : Nat → EngState B → XScore → XScore → XScore × EngState B
  | 0, st, _, _ => (evalX e st.1, st)
  | d + 1, st, alpha, beta =>
    if e.isGameOver st.1 then (evalX e st.1, st)
    else abLoopFS e (fun st' a' b'' => negamaxS e d st' a' b'') (orderedMoves e st.1) st alpha beta .negInf

/-- Python's `max(xs, key=f)`: the first element attaining the maximal key
(later elements replace only on a strictly greater key). -/
def maxByFirst {A : Type} (f : A → Int) : List A → Option A
  | [] => none
  | x :: xs => some (xs.foldl (fun best y => if f best < f y then y else best) x)

/-- `max(pairs, key=lambda item: item[1])` for the `(move, score)` candidate
list of the beginner heuristic. -/
def maxBySnd (l : List (UciMove × Int)) : Option (UciMove × Int) :=
  match l with
  | [] => none
  | x :: xs => some (xs.foldl (fun best y => if best.2 < y.2 then y else best) x)

/-- One iteration of the candidate-scanning loop of `_choose_beginner_move`:
safety-check the move, push it, score the resulting position (negated), pop,
and extend the safe-move and scored-candidate lists (unsafe moves recorded
with a 150-point penalty). -/
def beginnerStep {B : Type} (e : Engine B)
    (acc : EngState B × List UciMove × List (UciMove × Int)) (m : UciMove) :
    EngState B × List UciMove × List (UciMove × Int) :=
  let r := isMoveSafeS e acc.1 m
  let st1 := pushS e r.2 m
  let score := - evaluateBoard e st1.1
  let st2 := popS st1
  if r.1 then (st2, acc.2.1 ++ [m], acc.2.2 ++ [(m, score)])
  else (st2, acc.2.1, acc.2.2 ++ [(m, score - 150)])

/-- `_choose_beginner_move(board, randomness)` with the push/pop state
explicit.  `shuffled` is the outcome of `random.shuffle(moves)`;
`takeSafe` is the outcome of the draw `random.random() > randomness`.
Returns `none` in the first component where the source raises
(`max()` over an empty candidate list). -/
def chooseBeginnerS {B : Type} (e : Engine B) (st : EngState B)
    (shuffled : List UciMove) (takeSafe : Bool) :
    Option (UciMove × XScore) × EngState B :=
  let scan := shuffled.foldl (beginnerStep e) (st, [], [])
  let stScan := scan.1
  let safeMoves := scan.2.1
  let smartMoves := scan.2.2
  if safeMoves ≠ [] ∧ takeSafe then
    match maxByFirst (fun mv => moveOrderScore e stScan.1 mv) safeMoves with
    | none => (none, stScan)
    | some bestSafe =>
      let st1 := pushS e stScan bestSafe
      let score := - evaluateBoard e st1.1
      let st2 := popS st1
      (some (bestSafe, .fin score), st2)
  else
    match maxBySnd smartMoves with
    | none => (none, stScan)
    | some ms => (some (ms.1, .fin ms.2), stScan)

/-- `_choose_beginner_move` as a pure function of the position. -/
def chooseBeginner {B : Type} (e : Engine B) (b : B)
    (shuffled : List UciMove) (takeSafe : Bool) : Option (UciMove × XScore) :=
  (chooseBeginnerS e (b, []) shuffled takeSafe).1

/-- A `DIFFICULTY_SETTINGS` entry: `{"depth": …, "max_random_moves": …}`. -/
structure DifficultyProfile where
  depth : Nat
  maxRandomMoves : Rat
deriving DecidableEq, Repr

/-- `DIFFICULTY_SETTINGS`. -/
def DIFFICULTY_SETTINGS : List (String × DifficultyProfile) :=
  [("explorer", ⟨1, Rat.mk' 3 5⟩),
   ("beginner", ⟨1, Rat.mk' 2 5⟩),
   ("intermediate", ⟨2, Rat.mk' 1 10⟩),
   ("advanced", ⟨3, 0⟩)]

/-- ASCII lower-casing of one character, the effect of `str.lower()` on the
label alphabet in play. -/
def charLower (c : Char) : Char :=
  if 'A' ≤ c ∧ c ≤ 'Z' then Char.ofNat (c.toNat + 32) else c

/-- `label.lower()` (ASCII fragment). -/
def strLower (s : String) : String := String.mk (s.data.map charLower)

def isSpaceChar (c : Char) : Bool := c = ' ' || c = '\t' || c = '\n' || c = '\r'

/-- `label.strip()` (ASCII whitespace fragment). -/
def strStrip (s : String) : String :=
  String.mk (((s.data.dropWhile isSpaceChar).reverse.dropWhile isSpaceChar).reverse)

/-- `_difficulty_from_label(label)`: canonicalise, then look the label up in
the settings table; `none` models the `HTTPException("Unknown difficulty …")`
raise. -/
def difficultyFromLabel (label : String) : Option (String × DifficultyProfile) :=
  let canonical := strStrip (strLower label)
  match DIFFICULTY_SETTINGS.find? (fun kv => kv.1 == canonical) with
  | none => none
  | some kv => some (canonical, kv.2)

/-- Failure modes of the move-selection policy: the unknown-difficulty
`HTTPException`, and the two no-move failures (the search's explicit
`HTTPException` and the beginner heuristic's `max()` `ValueError`). -/
inductive SelectError where
  | unknownDifficulty
  | noMove
deriving DecidableEq, Repr

/-- The difficulty policy of the `ai_move` endpoint (spec §4.5 `select_move`):
resolve the profile, then route to the beginner heuristic (when the label is
`explorer`/`beginner` and the draw `random.random() < randomness` fires,
modelled by `lowDraw`) or to the search engine at the profile depth. -/
def selectMove {B : Type} (e : Engine B) (b : B) (label : String)
    (lowDraw : Bool) (shuffled : List UciMove) (takeSafe : Bool) :
    Except SelectError (UciMove × XScore) :=
  match difficultyFromLabel label with
  | none => .error .unknownDifficulty
  | some (canon, profile) =>
    if (canon == "explorer" || canon == "beginner") && lowDraw then
      match chooseBeginner e b shuffled takeSafe with
      | none => .error .noMove
      | some ms => .ok ms
    else
      match findBestMove e b profile.depth with
      | none => .error .noMove
      | some ms => .ok ms

/-- Failure modes of the `hint` endpoint. -/
inductive HintError where
  | gameOver
  | unknownDifficulty
  | noMove
deriving DecidableEq, Repr

/-- The move-selection core of the `hint` endpoint: default the label from the
full-move number when the payload carries no difficulty (Python `or`, so an
empty string also defaults), resolve the profile, and always call
`_find_best_move` at `max(1, depth)`. -/
def hintCore {B : Type} (e : Engine B) (b : B) (difficulty : Option String) :
    Except HintError (UciMove × XScore) :=
  if e.isGameOver b then .error .gameOver
  else
    let dflt := if 20 < e.fullmoveNumber b then "advanced" else "intermediate"
    let dlabel :=
      match difficulty with
      | none => dflt
      | some s => if s = "" then dflt else s
    match difficultyFromLabel dlabel with
    | none => .error .unknownDifficulty
    | some (_, profile) =>
      match findBestMove e b (max 1 profile.depth) with
      | none => .error .noMove
      | some ms => .ok ms

/-- `[a-h]` file character to its index. -/
def fileIndex (c : Char) : Option Nat :=
  if 'a' ≤ c ∧ c ≤ 'h' then some (c.toNat - 97) else none

/-- `[1-8]` rank character to its index. -/
def rankIndex (c : Char) : Option Nat :=
  if '1' ≤ c ∧ c ≤ '8' then some (c.toNat - 49) else none

/-- Promotion piece symbol to piece type. -/
def promoPiece (c : Char) : Option PieceType :=
  if c = 'q' then some .queen
  else if c = 'r' then some .rook
  else if c = 'b' then some .bishop
  else if c = 'n' then some .knight
  else none

/-- `chess.Move.from_uci(uci)`: `"0000"` is the null move; otherwise four or
five characters (squares plus optional promotion), rejecting equal squares;
`none` models the raised parse error. -/
def parseUci (s : String) : Option UciMove :=
  if s = "0000" then some ⟨0, 0, none⟩
  else
    match s.data with
    | [f1, r1, f2, r2] =>
      match fileIndex f1, rankIndex r1, fileIndex f2, rankIndex r2 with
      | some a, some b, some c, some d =>
        let sq1 := b * 8 + a
        let sq2 := d * 8 + c
        if sq1 = sq2 then none else some ⟨sq1, sq2, none⟩
      | _, _, _, _ => none
    | [f1, r1, f2, r2, p] =>
      match fileIndex f1, rankIndex r1, fileIndex f2, rankIndex r2, promoPiece p with
      | some a, some b, some c, some d, some pc =>
        let sq1 := b * 8 + a
        let sq2 := d * 8 + c
        if sq1 = sq2 then none else some ⟨sq1, sq2, some pc⟩
      | _, _, _, _, _ => none
    | _ => none

/-- Failure modes of the `apply_move` endpoint: the guarded 400 on a bad move
encoding, the 400 on an illegal move, and the unguarded `ValueError` escaping
from the promotion re-encoding (outside the `try`). -/
inductive ApplyError where
  | invalidEncoding
  | illegalMove
  | internalError
deriving DecidableEq, Repr

/-- The `apply_move` endpoint's move handling: parse the payload move, merge a
separately-supplied promotion piece into a promotionless 4-character move
before the legality check, reject moves not in the legal move list, and push
the (possibly re-encoded) move. -/
def applyMoveE {B : Type} (e : Engine B) (b : B) (moveStr : String)
    (promo : Option Char) : Except ApplyError (UciMove × B) :=
  match parseUci moveStr with
  | none => .error .invalidEncoding
  | some mv =>
    let reencoded : Except ApplyError UciMove :=
      match promo with
      | some c =>
        if mv.promotion.isNone then
          match parseUci (String.mk (moveStr.data.take 4) |>.push c) with
          | none => .error .internalError
          | some mv2 => .ok mv2
        else .ok mv
      | none => .ok mv
    match reencoded with
    | .error er => .error er
    | .ok mv' =>
      if mv' ∈ e.legalMoves b then .ok (mv', e.push b mv')
      else .error .illegalMove

/-- Material term of the evaluation, White minus Black over the standard
values (spec §4.1 step 3). -/
def materialTerm {B : Type} (e : Engine B) (b : B) : Int :=
  (100 * ((e.pieces b .pawn true).length : Int)
    + 320 * ((e.pieces b .knight true).length : Int)
    + 330 * ((e.pieces b .bishop true).length : Int)
    + 500 * ((e.pieces b .rook true).length : Int)
    + 900 * ((e.pieces b .queen true).length : Int)
    + 20000 * ((e.pieces b .king true).length : Int))
  - (100 * ((e.pieces b .pawn false).length : Int)
    + 320 * ((e.pieces b .knight false).length : Int)
    + 330 * ((e.pieces b .bishop false).length : Int)
    + 500 * ((e.pieces b .rook false).length : Int)
    + 900 * ((e.pieces b .queen false).length : Int)
    + 20000 * ((e.pieces b .king false).length : Int))

/-- Positional contribution of one piece type: piece-square values over both
colors' occupied squares. -/
def pieceTypePositional {B : Type} (e : Engine B) (b : B) (pt : PieceType) (eg : Bool) : Int :=
  ((e.pieces b pt true).map (fun sq => pieceSquareValue ⟨pt, true⟩ sq eg)).sum
  + ((e.pieces b pt false).map (fun sq => pieceSquareValue ⟨pt, false⟩ sq eg)).sum

/-- Positional term of the evaluation (spec §4.1 step 4). -/
def positionalTerm {B : Type} (e : Engine B) (b : B) (eg : Bool) : Int :=
  pieceTypePositional e b .pawn eg + pieceTypePositional e b .knight eg
  + pieceTypePositional e b .bishop eg + pieceTypePositional e b .rook eg
  + pieceTypePositional e b .queen eg + pieceTypePositional e b .king eg

/-- Center-control term: ±15 per occupied square of {d4, e4, d5, e5}
(spec §4.1 step 5). -/
def centerTerm {B : Type} (e : Engine B) (b : B) : Int :=
  15 * ((CENTER_SQUARES_LIST.countP
      (fun sq => match e.pieceAt b sq with | some p => p.color | none => false) : Nat) : Int)
  - 15 * ((CENTER_SQUARES_LIST.countP
      (fun sq => match e.pieceAt b sq with | some p => !p.color | none => false) : Nat) : Int)

/-- King-safety term: ±30 for retained castling rights (spec §4.1 step 7). -/
def kingSafetyTerm {B : Type} (e : Engine B) (b : B) : Int :=
  (if e.hasKingsideCastlingRights b true || e.hasQueensideCastlingRights b true then 30 else 0)
  - (if e.hasKingsideCastlingRights b false || e.hasQueensideCastlingRights b false then 30 else 0)

/-- Bishop-pair term: ±35 when a side has at least two bishops
(spec §4.1 step 8). -/
def bishopPairTerm {B : Type} (e : Engine B) (b : B) : Int :=
  (if 2 ≤ (e.pieces b .bishop true).length then 35 else 0)
  - (if 2 ≤ (e.pieces b .bishop false).length then 35 else 0)

/-- The mobility bonus: 5 per legal move of the side to move
(spec §4.1 step 6). -/
def mobilityBonusTerm {B : Type} (e : Engine B) (b : B) : Int :=
  5 * ((e.legalMoves b).length : Int)

/-- The White-perspective raw score (spec §4.1 step 9). -/
def rawScore {B : Type} (e : Engine B) (b : B) : Int :=
  materialTerm e b + positionalTerm e b (isEndgame e b) + centerTerm e b
  + kingSafetyTerm e b + bishopPairTerm e b

/-- A concrete instance of the rules-engine interface on `Nat`-coded
positions, used to witness the parametric theorems on explicit inputs.
Boards `0 … 7` are in-progress positions with two moves each; `8` has no
legal moves; `9`/`10`/`11` are checkmate / stalemate / insufficient-material
boards; `12` is an en-passant-style board (its move is a capture whose
destination square is empty); `13` is a board whose single move gives check
(board `14` is its successor, with the new side to move in check). -/
def toyEngine : Engine Nat where
  legalMoves n :=
    if n = 12 then [⟨36, 43, none⟩]
    else if n = 13 then [⟨3, 33, none⟩]
    else if n < 8 then [⟨n, n + 8, none⟩, ⟨n, n + 16, none⟩]
    else []
  push n _ := if n = 13 then 14 else n + 1
  turn n := decide (n % 2 = 0)
  isGameOver n := decide (8 ≤ n)
  isCheckmate n := decide (n = 9)
  isStalemate n := decide (n = 10)
  isInsufficientMaterial n := decide (n = 11)
  isInCheck n c := decide (n = 14) && c
  isAttackedBy _ _ _ := false
  pieceAt n sq :=
    if n = 12 ∧ sq = 35 then some ⟨.pawn, false⟩
    else if n = 12 ∧ sq = 36 then some ⟨.pawn, true⟩
    else none
  pieces _ _ _ := []
  hasKingsideCastlingRights _ _ := false
  hasQueensideCastlingRights _ _ := false
  isCapture n _ := decide (n = 12)
  givesCheck _ _ := false
  isCastling _ _ := false
  fullmoveNumber n := n + 1

/-- C2: on a checkmate position the evaluator returns exactly −100000, and on
a stalemate or insufficient-material (non-checkmate) position it returns
exactly 0; no other evaluation term contributes in either terminal case. -/
theorem chessC2_terminal_eval {B : Type} (e : Engine B) (b : B) :
    (e.isCheckmate b = true → evaluateBoard e b = -100000)
    ∧ (e.isCheckmate b = false →
        (e.isStalemate b || e.isInsufficientMaterial b) = true →
        evaluateBoard e b = 0) := by
  constructor
  · intro h
    simp [evaluateBoard, h, CHECKMATE_SCORE]
  · intro h1 h2
    simp [evaluateBoard, h1, h2]

/-- Witness for C2: the toy checkmate board evaluates to −100000 and the toy
stalemate board to 0. -/
theorem chessC2_terminal_eval_witness :
    evaluateBoard toyEngine 9 = -100000 ∧ evaluateBoard toyEngine 10 = 0 :=
  ⟨(chessC2_terminal_eval toyEngine 9).1 (by decide),
   (chessC2_terminal_eval toyEngine 10).2 (by decide) (by decide)⟩

/-- C3 counterexample: a Black king on a1 (square 0, middlegame) contributes
the table entry read directly (20), not the negated entry of the vertically
mirrored square (which would be 30) — the king does not follow the
mirror-and-negate rule the claim asserts. -/
theorem chessC3_counterexample :
    pieceSquareValue ⟨.king, false⟩ 0 false = 20
    ∧ - (KING_TABLE_MID.getD (mirrorSquareForBlack 0) 0) = 30
    ∧ pieceSquareValue ⟨.king, false⟩ 0 false
        ≠ - (KING_TABLE_MID.getD (mirrorSquareForBlack 0) 0) := by
  refine ⟨by decide, by decide, by decide⟩

/-- C3 amended: for pawn, knight, bishop, rook and queen a White piece
contributes the table entry at its square and a Black piece the negated entry
at the vertically mirrored square; the king instead contributes the
phase-selected king-table entry at its own square for BOTH colors, with no
mirroring and no negation. -/
theorem chessC3_amended (pt : PieceType) (c : Bool) (sq : Nat) (eg : Bool) :
    pieceSquareValue ⟨pt, c⟩ sq eg =
      match pt with
      | .king => (if eg then KING_TABLE_END else KING_TABLE_MID).getD sq 0
      | _ =>
        let t := (TABLE_LOOKUP pt).getD []
        if c then t.getD sq 0 else - t.getD (sq % 8 + 8 * (7 - sq / 8)) 0 := by
  cases pt <;> cases c <;>
    simp [pieceSquareValue, TABLE_LOOKUP, mirrorSquareForBlack]

/-- Folding `s + f x` over a list equals the initial value plus the sum of the
mapped list. -/
theorem foldl_add_eq_sum_map {A : Type} (f : A → Int) :
    ∀ (l : List A) (init : Int), l.foldl (fun s x => s + f x) init = init + (l.map f).sum := by
  intro l
  induction l with
  | nil => simp
  | cons x xs ih =>
    intro init
    simp only [List.foldl_cons, List.map_cons, List.sum_cons, ih]
    ring

/-- The center-control fold of `_evaluate_board` counts ±15 per occupied
center square. -/
theorem center_fold_eq {B : Type} (e : Engine B) (b : B) :
    ∀ (l : List Nat) (init : Int),
      l.foldl (fun c sq =>
          match e.pieceAt b sq with
          | none => c
          | some piece => if piece.color then c + 15 else c - 15) init
      = init
        + 15 * ((l.countP (fun sq => match e.pieceAt b sq with | some p => p.color | none => false) : Nat) : Int)
        - 15 * ((l.countP (fun sq => match e.pieceAt b sq with | some p => !p.color | none => false) : Nat) : Int) := by
  intro l
  induction l with
  | nil => simp
  | cons x xs ih =>
    intro init
    simp only [List.foldl_cons, List.countP_cons]
    rcases hx : e.pieceAt b x with _ | p
    · simp only [hx, ih]
      push_cast
      ring
    · rcases hc : p.color with _ | _ <;> simp [hx, hc, ih] <;> push_cast <;> ring

/-- C4: on every non-terminal position the evaluator returns
`raw + 5·L` when White is to move and `−raw + 5·L` when Black is to move,
where `raw` is the White-perspective sum of the material, positional,
center-control, king-safety and bishop-pair terms and `L` the number of legal
moves of the side to move; the mobility bonus is added exactly once and
always with positive sign. -/
theorem chessC4_nonterminal_eval {B : Type} (e : Engine B) (b : B)
    (h1 : e.isCheckmate b = false) (h2 : e.isStalemate b = false)
    (h3 : e.isInsufficientMaterial b = false) :
    evaluateBoard e b =
      if e.turn b then rawScore e b + mobilityBonusTerm e b
      else - rawScore e b + mobilityBonusTerm e b := by
  unfold evaluateBoard
  rw [h1, h2, h3]
  unfold rawScore materialTerm positionalTerm pieceTypePositional centerTerm
    kingSafetyTerm bishopPairTerm mobilityBonusTerm
  simp only [Bool.false_eq_true, if_false, Bool.or_self]
  rw [center_fold_eq e b]
  simp only [PIECE_VALUES_LIST, List.foldl_cons, List.foldl_nil,
    foldl_add_eq_sum_map]
  split_ifs <;> push_cast <;> ring

/-- C5 counterexample: on toy board 13 the single legal move is flagged
unsafe by `_is_move_safe`, yet after playing it the moving side is not in
check and the destination square is not attacked by the opponent of the
moving side — the check that actually fires is `board.is_check()` on the
pushed board, i.e. the move GIVES check to the side to move after it. -/
theorem chessC5_counterexample :
    (⟨3, 33, none⟩ : UciMove) ∈ toyEngine.legalMoves 13
    ∧ isMoveSafe toyEngine 13 ⟨3, 33, none⟩ = false
    ∧ toyEngine.isInCheck (toyEngine.push 13 ⟨3, 33, none⟩) (toyEngine.turn 13) = false
    ∧ toyEngine.isAttackedBy (toyEngine.push 13 ⟨3, 33, none⟩) (!(toyEngine.turn 13)) 33 = false := by
  decide

/-- C5 amended: `is_safe(p, m)` returns false iff, after playing `m`, the
side to move on the resulting position (the mover's opponent) is in check —
i.e. `m` gives check — or the destination square of `m` is attacked by the
side to move on the resulting position. -/
theorem chessC5_amended {B : Type} (e : Engine B) (b : B) (m : UciMove)
    (hm : m ∈ e.legalMoves b) :
    isMoveSafe e b m = false ↔
      (isCheckB e (e.push b m) = true
        ∨ e.isAttackedBy (e.push b m) (e.turn (e.push b m)) m.toSquare = true) := by
  unfold isMoveSafe isMoveSafeS pushS isCheckB
  rcases h1 : e.isInCheck (e.push b m) (e.turn (e.push b m)) with _ | _ <;>
    rcases h2 : e.isAttackedBy (e.push b m) (e.turn (e.push b m)) m.toSquare with _ | _ <;>
    simp [isCheckB, h1, h2]

/-- Witness for C5 amended, at the toy board 13 and its legal move. -/
theorem chessC5_amended_witness :
    ((⟨3, 33, none⟩ : UciMove) ∈ toyEngine.legalMoves 13)
    ∧ (isMoveSafe toyEngine 13 ⟨3, 33, none⟩ = false ↔
        (isCheckB toyEngine (toyEngine.push 13 ⟨3, 33, none⟩) = true
          ∨ toyEngine.isAttackedBy (toyEngine.push 13 ⟨3, 33, none⟩)
              (toyEngine.turn (toyEngine.push 13 ⟨3, 33, none⟩)) (33 : Nat) = true)) :=
  ⟨by decide, chessC5_amended toyEngine 13 ⟨3, 33, none⟩ (by decide)⟩

/-- C6 counterexample: on toy board 12 the legal move 36→43 is a capture
(en-passant style: the captured pawn stands on square 35, the destination 43
is empty), gives no check, is not castling and does not reach a center
square; its priority is 0, not the 10×100 = 1000 the claim's capture rule
demands for a captured pawn. -/
theorem chessC6_counterexample :
    toyEngine.isCapture 12 ⟨36, 43, none⟩ = true
    ∧ (⟨36, 43, none⟩ : UciMove) ∈ toyEngine.legalMoves 12
    ∧ toyEngine.pieceAt 12 35 = some ⟨.pawn, false⟩
    ∧ toyEngine.pieceAt 12 43 = none
    ∧ toyEngine.givesCheck 12 ⟨36, 43, none⟩ = false
    ∧ toyEngine.isCastling 12 ⟨36, 43, none⟩ = false
    ∧ squareName 43 ∉ ["d4", "e4", "d5", "e5"]
    ∧ moveOrderScore toyEngine 12 ⟨36, 43, none⟩ = 0
    ∧ (0 : Int) ≠ 10 * PIECE_VALUES .pawn := by
  decide

/-- C6 amended: the priority is the sum of the four bonuses, where the
capture bonus is 10 × the value of the piece standing on the destination
square — so an en-passant capture, whose destination square is empty,
contributes 0 for the capture rule. -/
theorem chessC6_amended {B : Type} (e : Engine B) (b : B) (m : UciMove)
    (hm : m ∈ e.legalMoves b) :
    moveOrderScore e b m =
      (if e.isCapture b m then
        match e.pieceAt b m.toSquare with
        | some captured => 10 * PIECE_VALUES captured.pieceType
        | none => 0
       else 0)
      + (if e.givesCheck b m then 80 else 0)
      + (if e.isCastling b m then 40 else 0)
      + (if squareName m.toSquare ∈ ["d4", "e4", "d5", "e5"] then 25 else 0) := by
  unfold moveOrderScore
  rcases h1 : e.isCapture b m with _ | _ <;>
    rcases h2 : e.pieceAt b m.toSquare with _ | p <;>
    simp [h1, h2] <;> split_ifs <;> ring

/-- Witness for C6 amended, at the toy en-passant board and its legal move. -/
theorem chessC6_amended_witness :
    ((⟨36, 43, none⟩ : UciMove) ∈ toyEngine.legalMoves 12)
    ∧ moveOrderScore toyEngine 12 ⟨36, 43, none⟩ =
      (if toyEngine.isCapture 12 ⟨36, 43, none⟩ then
        match toyEngine.pieceAt 12 (43 : Nat) with
        | some captured => 10 * PIECE_VALUES captured.pieceType
        | none => 0
       else 0)
      + (if toyEngine.givesCheck 12 ⟨36, 43, none⟩ then 80 else 0)
      + (if toyEngine.isCastling 12 ⟨36, 43, none⟩ then 40 else 0)
      + (if squareName 43 ∈ ["d4", "e4", "d5", "e5"] then 25 else 0) :=
  ⟨by decide, chessC6_amended toyEngine 12 ⟨36, 43, none⟩ (by decide)⟩

theorem popS_pushS {B : Type} (e : Engine B) (st : EngState B) (m : UciMove) :
    popS (pushS e st m) = st := by
  obtain ⟨b, stk⟩ := st
  rfl

theorem isMoveSafeS_state {B : Type} (e : Engine B) (st : EngState B) (m : UciMove) :
    (isMoveSafeS e st m).2 = st := by
  simp only [isMoveSafeS, popS_pushS]

theorem abLoopFS_state {B : Type} (e : Engine B)
    {f : EngState B → XScore → XScore → XScore × EngState B}
    (hf : ∀ st a c, (f st a c).2 = st) :
    ∀ (ms : List UciMove) (st : EngState B) (alpha beta maxE : XScore),
      (abLoopFS e f ms st alpha beta maxE).2 = st := by
  intro ms
  induction ms with
  | nil => intro st alpha beta maxE; rfl
  | cons m rest ih =>
    intro st alpha beta maxE
    simp only [abLoopFS, hf, popS_pushS]
    repeat' split
    all_goals first | rfl | exact ih st _ beta _

theorem negamaxS_state {B : Type} (e : Engine B) :
    ∀ (d : Nat) (st : EngState B) (alpha beta : XScore),
      (negamaxS e d st alpha beta).2 = st := by
  intro d
  induction d with
  | zero => intro st alpha beta; rfl
  | succ d ih =>
    intro st alpha beta
    simp only [negamaxS]
    split
    · rfl
    · exact abLoopFS_state e (fun st' a' c' => ih st' a' c') _ _ _ _ _

theorem beginnerStep_state {B : Type} (e : Engine B)
    (acc : EngState B × List UciMove × List (UciMove × Int)) (m : UciMove) :
    (beginnerStep e acc m).1 = acc.1 := by
  simp only [beginnerStep, isMoveSafeS_state, popS_pushS]
  split <;> rfl

theorem beginnerScan_state {B : Type} (e : Engine B) :
    ∀ (ms : List UciMove) (acc : EngState B × List UciMove × List (UciMove × Int)),
      (ms.foldl (beginnerStep e) acc).1 = acc.1 := by
  intro ms
  induction ms with
  | nil => intro acc; rfl
  | cons m rest ih =>
    intro acc
    rw [List.foldl_cons, ih, beginnerStep_state]

theorem chooseBeginnerS_state {B : Type} (e : Engine B) (st : EngState B)
    (shuffled : List UciMove) (takeSafe : Bool) :
    (chooseBeginnerS e st shuffled takeSafe).2 = st := by
  simp only [chooseBeginnerS, beginnerScan_state, popS_pushS]
  split
  · split
    · rfl
    · simp only [popS_pushS]
  · split <;> rfl

/-- C8: the position is unchanged on return from every internally mutating
operation — the safety check, the recursive negamax search and the beginner
heuristic each leave the explicit push/pop board state exactly as they found
it on every exit path. -/
theorem chessC8_state_preservation {B : Type} (e : Engine B) (st : EngState B)
    (m : UciMove) (d : Nat) (alpha beta : XScore) (shuffled : List UciMove)
    (takeSafe : Bool) :
    (isMoveSafeS e st m).2 = st
    ∧ (negamaxS e d st alpha beta).2 = st
    ∧ (chooseBeginnerS e st shuffled takeSafe).2 = st :=
  ⟨isMoveSafeS_state e st m, negamaxS_state e d st alpha beta,
   chooseBeginnerS_state e st shuffled takeSafe⟩

theorem XScore.if_lt_eq_xmax (a b : XScore) : (if a.lt b = true then b else a) = a.xmax b := rfl

theorem XScore.posInf_lt (a : XScore) : XScore.posInf.lt a = false := by
  cases a <;> simp [XScore.lt, XScore.le]

theorem XScore.le_neg_right_iff {a b : XScore} : a.le b.neg = true ↔ b.le a.neg = true := by
  cases a <;> cases b <;> simp [XScore.le, XScore.neg] <;> omega

theorem XScore.neg_le_left_iff {a b : XScore} : a.neg.le b = true ↔ b.neg.le a = true := by
  cases a <;> cases b <;> simp [XScore.le, XScore.neg] <;> omega

theorem XScore.lt_neg_right_iff {a b : XScore} : a.lt b.neg = true ↔ b.lt a.neg = true := by
  cases a <;> cases b <;> simp [XScore.lt, XScore.le, XScore.neg] <;> omega

theorem XScore.neg_lt_left_iff {a b : XScore} : a.neg.lt b = true ↔ b.neg.lt a = true := by
  cases a <;> cases b <;> simp [XScore.lt, XScore.le, XScore.neg] <;> omega

/-- The fail-soft alpha–beta approximation relation of the Knuth–Moore
theorem: the pruned result `r`, compared with the exact full-width value `v`
relative to the window `(alpha, beta)` — a fail-low result bounds `v` from
above, a fail-high result bounds it from below, and an in-window result is
exact. -/
def KMapprox (r v alpha beta : XScore) : Prop :=
  (r.le alpha = true → v.le r = true)
  ∧ (beta.le r = true → r.le v = true)
  ∧ (alpha.lt r = true → r.lt beta = true → r = v)

theorem KMapprox_refl (r alpha beta : XScore) : KMapprox r r alpha beta :=
  ⟨fun _ => XScore.le_refl r, fun _ => XScore.le_refl r, fun _ _ => rfl⟩

/-- Transport of the child's Knuth–Moore facts through the negation that the
negamax convention applies: with `s` the negated child result and `t` the
negated child value, a fail-high `s` is a lower bound, a fail-low `s` an
upper bound, and an in-window `s` exact. -/
theorem KMapprox_neg_child {rc vc alpha beta : XScore}
    (h : KMapprox rc vc beta.neg alpha.neg) :
    (beta.le rc.neg = true → rc.neg.le vc.neg = true)
    ∧ (rc.neg.le alpha = true → vc.neg.le rc.neg = true)
    ∧ (alpha.lt rc.neg = true → rc.neg.lt beta = true → rc.neg = vc.neg) := by
  obtain ⟨h1, h2, h3⟩ := h
  refine ⟨?_, ?_, ?_⟩
  · intro hb
    exact XScore.neg_le_neg_iff.mpr (h1 (XScore.le_neg_right_iff.mpr hb))
  · intro ha
    exact XScore.neg_le_neg_iff.mpr (h2 (XScore.neg_le_left_iff.mpr ha))
  · intro ha hb
    exact congrArg XScore.neg
      (h3 (XScore.neg_lt_left_iff.mpr hb) (XScore.lt_neg_right_iff.mpr ha))

theorem fullLoopF_acc_le {B : Type} (e : Engine B) (g : B → XScore) (b : B) :
    ∀ (ms : List UciMove) (acc : XScore), acc.le (fullLoopF e g b ms acc) = true := by
  intro ms
  induction ms with
  | nil => intro acc; exact XScore.le_refl acc
  | cons m rest ih =>
    intro acc
    simp only [fullLoopF]
    exact XScore.le_trans (XScore.le_xmax_left acc _) (ih _)

theorem fullLoopF_mono {B : Type} (e : Engine B) (g : B → XScore) (b : B) :
    ∀ (ms : List UciMove) {a c : XScore}, a.le c = true →
      (fullLoopF e g b ms a).le (fullLoopF e g b ms c) = true := by
  intro ms
  induction ms with
  | nil => intro a c h; exact h
  | cons m rest ih =>
    intro a c h
    simp only [fullLoopF]
    exact ih (XScore.xmax_le_xmax h (XScore.le_refl _))

theorem fullLoopF_decomp {B : Type} (e : Engine B) (g : B → XScore) (b : B) :
    ∀ (ms : List UciMove) (acc : XScore),
      fullLoopF e g b ms acc = acc.xmax (fullLoopF e g b ms .negInf) := by
  intro ms
  induction ms with
  | nil =>
    intro acc
    exact (XScore.xmax_eq_left (XScore.negInf_le acc)).symm
  | cons m rest ih =>
    intro acc
    simp only [fullLoopF]
    rw [ih, XScore.xmax_eq_right (XScore.negInf_le _), ih ((g (e.push b m)).neg),
      XScore.xmax_assoc]

theorem fullLoopF_posInf {B : Type} (e : Engine B) (g : B → XScore) (b : B)
    (ms : List UciMove) : fullLoopF e g b ms .posInf = .posInf :=
  XScore.le_antisymm (XScore.le_posInf _) (fullLoopF_acc_le e g b ms .posInf)

/-- Knuth–Moore correctness of the alpha–beta move loop: given that the child
search satisfies the fail-soft approximation property on every window, the
loop's fail-soft result approximates the full-width fold (and dominates the
incoming `max_eval`). -/
theorem abLoopF_KM {B : Type} (e : Engine B)
    {f : B → XScore → XScore → XScore} {g : B → XScore}
    (hfg : ∀ (b' : B) (a c : XScore), a.lt c = true → KMapprox (f b' a c) (g b') a c)
    (b : B) :
    ∀ (ms : List UciMove) (alpha beta maxE : XScore),
      alpha.lt beta = true → maxE.le alpha = true →
      maxE.le (abLoopF e f b ms alpha beta maxE) = true
      ∧ KMapprox (abLoopF e f b ms alpha beta maxE) (fullLoopF e g b ms maxE) alpha beta := by
  intro ms
  induction ms with
  | nil =>
    intro alpha beta maxE hab hma
    exact ⟨XScore.le_refl maxE, KMapprox_refl maxE alpha beta⟩
  | cons m rest ih =>
    intro alpha beta maxE hab hma
    simp only [abLoopF, fullLoopF, XScore.if_lt_eq_xmax]
    obtain ⟨hC1, hC2, hC3⟩ := KMapprox_neg_child
      (hfg (e.push b m) beta.neg alpha.neg (XScore.neg_lt_neg_iff.mpr hab))
    set s := (f (e.push b m) beta.neg alpha.neg).neg with hs
    set t := (g (e.push b m)).neg with ht
    set maxE' := maxE.xmax s with hmaxE'
    set alpha' := alpha.xmax maxE' with halpha'
    have hmm' : maxE.le maxE' = true := by rw [hmaxE']; exact XScore.le_xmax_left maxE s
    have hsm' : s.le maxE' = true := by rw [hmaxE']; exact XScore.le_xmax_right maxE s
    have haa' : alpha.le alpha' = true := by rw [halpha']; exact XScore.le_xmax_left alpha maxE'
    have hm'a' : maxE'.le alpha' = true := by rw [halpha']; exact XScore.le_xmax_right alpha maxE'
    by_cases hcut : beta.le alpha' = true
    · rw [if_pos hcut]
      have hbm : beta.le maxE' = true := by
        rcases XScore.le_xmax_iff.mp (halpha' ▸ hcut) with h | h
        · exact absurd h (XScore.lt_iff_not_le.mp hab)
        · exact h
      have hms : maxE' = s := by
        rcases XScore.xmax_cases maxE s with h | h
        · exfalso
          have h1 : maxE'.le alpha = true := by rw [hmaxE', h]; exact hma
          exact (XScore.lt_iff_not_le.mp hab) (XScore.le_trans hbm h1)
        · rw [hmaxE']; exact h
      refine ⟨hmm', ?_, ?_, ?_⟩
      · intro hra
        exfalso
        exact (XScore.lt_iff_not_le.mp hab) (XScore.le_trans hbm hra)
      · intro _
        have hst : s.le t = true := hC1 (hms ▸ hbm)
        rw [hms]
        exact XScore.le_trans (XScore.le_trans hst (XScore.le_xmax_right maxE t))
          (fullLoopF_acc_le e g b rest _)
      · intro _ hrb
        exfalso
        exact (XScore.lt_iff_not_le.mp hrb) hbm
    · rw [if_neg hcut]
      have ha'b : alpha'.lt beta = true := XScore.lt_iff_not_le.mpr hcut
      obtain ⟨H4, H1, H2, H3⟩ := ih alpha' beta maxE' ha'b hm'a'
      set r := abLoopF e f b rest alpha' beta maxE' with hr
      set w' := fullLoopF e g b rest maxE' with hw'
      set w := fullLoopF e g b rest (maxE.xmax t) with hw
      refine ⟨XScore.le_trans hmm' H4, ?_, ?_, ?_⟩
      · intro hra
        have hra' : r.le alpha' = true := XScore.le_trans hra haa'
        have hw'r : w'.le r = true := H1 hra'
        have hsr : s.le alpha = true := XScore.le_trans (XScore.le_trans hsm' H4) hra
        have hts : t.le s = true := hC2 hsr
        have hww' : w.le w' = true := by
          rw [hw, hw', hmaxE']
          exact fullLoopF_mono e g b rest (XScore.xmax_le_xmax (XScore.le_refl maxE) hts)
        exact XScore.le_trans hww' hw'r
      · intro hbr
        have hrw' : r.le w' = true := H2 hbr
        by_cases hsa : s.le alpha = true
        · have hts : t.le s = true := hC2 hsa
          have hdec : w' = maxE'.xmax (fullLoopF e g b rest .negInf) := by
            rw [hw']; exact fullLoopF_decomp e g b rest maxE'
          rcases XScore.le_xmax_iff.mp (hdec ▸ hrw') with h | h
          · exfalso
            have hma' : maxE'.le alpha = true := by rw [hmaxE']; exact XScore.xmax_le hma hsa
            exact (XScore.lt_iff_not_le.mp hab)
              (XScore.le_trans hbr (XScore.le_trans h hma'))
          · have hRw : (fullLoopF e g b rest XScore.negInf).le w = true := by
              rw [hw]
              exact fullLoopF_mono e g b rest (XScore.negInf_le _)
            exact XScore.le_trans h hRw
        · have has : alpha.lt s = true := XScore.lt_iff_not_le.mpr hsa
          have hsb : s.lt beta = true :=
            XScore.lt_of_le_of_lt (XScore.le_trans hsm' hm'a') ha'b
          have hst : s = t := hC3 has hsb
          have hweq : w = w' := by rw [hw, hw', hmaxE', ← hst]
          rw [hweq]
          exact hrw'
      · intro har hrb
        by_cases hra' : r.le alpha' = true
        · have hw'r : w'.le r = true := H1 hra'
          have hrm : r.le maxE' = true := by
            rcases XScore.le_xmax_iff.mp (halpha' ▸ hra') with h | h
            · exact absurd h (XScore.lt_iff_not_le.mp har)
            · exact h
          have hreq : r = maxE' := XScore.le_antisymm hrm H4
          have hms : maxE' = s := by
            rcases XScore.xmax_cases maxE s with h | h
            · exfalso
              have h1 : r.le alpha = true := by rw [hreq, hmaxE', h]; exact hma
              exact (XScore.lt_iff_not_le.mp har) h1
            · rw [hmaxE']; exact h
          have has : alpha.lt s = true := by rw [← hms, ← hreq]; exact har
          have hsb : s.lt beta = true := by rw [← hms, ← hreq]; exact hrb
          have hst : s = t := hC3 has hsb
          have hweq : w = w' := by rw [hw, hw', hmaxE', ← hst]
          have hrw' : r.le w' = true := by
            rw [hreq, hw']
            exact fullLoopF_acc_le e g b rest maxE'
          rw [hweq]
          exact XScore.le_antisymm hrw' hw'r
        · have ha'r : alpha'.lt r = true := XScore.lt_iff_not_le.mpr hra'
          have hrweq : r = w' := H3 ha'r hrb
          by_cases hsa : s.le alpha = true
          · have hts : t.le s = true := hC2 hsa
            have hm'a : maxE'.le alpha = true := by rw [hmaxE']; exact XScore.xmax_le hma hsa
            have hdec : w' = maxE'.xmax (fullLoopF e g b rest .negInf) := by
              rw [hw']; exact fullLoopF_decomp e g b rest maxE'
            by_cases hRm : (fullLoopF e g b rest XScore.negInf).le maxE' = true
            · exfalso
              have hw'm : w' = maxE' := by rw [hdec]; exact XScore.xmax_eq_left hRm
              have h1 : r.le alpha = true := by rw [hrweq, hw'm]; exact hm'a
              exact (XScore.lt_iff_not_le.mp har) h1
            · have hmR : maxE'.le (fullLoopF e g b rest XScore.negInf) = true := by
                rcases XScore.le_total maxE' (fullLoopF e g b rest XScore.negInf) with h | h
                · exact h
                · exact absurd h hRm
              have hw'R : w' = fullLoopF e g b rest XScore.negInf := by
                rw [hdec]; exact XScore.xmax_eq_right hmR
              have hwR : w = fullLoopF e g b rest XScore.negInf := by
                rw [hw, fullLoopF_decomp e g b rest]
                refine XScore.xmax_eq_right ?_
                have h1 : (maxE.xmax t).le maxE' = true := by
                  rw [hmaxE']
                  exact XScore.xmax_le_xmax (XScore.le_refl maxE) hts
                exact XScore.le_trans h1 hmR
              rw [hwR, hrweq, hw'R]
          · have has : alpha.lt s = true := XScore.lt_iff_not_le.mpr hsa
            have hsb : s.lt beta = true :=
              XScore.lt_of_le_of_lt (XScore.le_trans hsm' hm'a') ha'b
            have hst : s = t := hC3 has hsb
            have hweq : w = w' := by rw [hw, hw', hmaxE', ← hst]
            rw [hweq]
            exact hrweq

/-- Knuth–Moore theorem for `_negamax`: at every depth and on every window
`alpha < beta`, the pruned search approximates the unpruned full-width value
in the fail-soft sense (and is exact whenever its result is inside the
window). -/
theorem negamax_KM {B : Type} (e : Engine B) :
    ∀ (d : Nat) (b : B) (alpha beta : XScore), alpha.lt beta = true →
      KMapprox (negamax e d b alpha beta) (negamaxFull e d b) alpha beta := by
  intro d
  induction d with
  | zero =>
    intro b alpha beta _
    exact KMapprox_refl (evalX e b) alpha beta
  | succ d ih =>
    intro b alpha beta hab
    by_cases hgo : e.isGameOver b = true
    · simp only [negamax, negamaxFull, hgo, if_true]
      exact KMapprox_refl (evalX e b) alpha beta
    · simp only [negamax, negamaxFull, hgo, Bool.false_ne_true, if_false]
      exact (abLoopF_KM e (fun b' a c h => ih b' a c h) b (orderedMoves e b)
        alpha beta .negInf hab (XScore.negInf_le alpha)).2

/-- Once the root's running best score has hit `+inf`, the remaining root
iterations keep the best move and score unchanged. -/
theorem rootLoop_posInf {B : Type} (e : Engine B) (d : Nat) (b : B) :
    ∀ (ms : List UciMove) (m0 : UciMove),
      rootLoop e d b ms .posInf (some m0) .posInf = some (m0, .posInf) := by
  intro ms
  induction ms with
  | nil => intro m0; rfl
  | cons m rest ih =>
    intro m0
    simp only [rootLoop, XScore.posInf_lt, Option.isNone_some, Bool.or_self,
      Bool.false_eq_true, if_false]
    exact ih m0

/-- The root loop invariant: with the running alpha equal to the running best
score (and not `+inf`), the final best score is the full-width fold of the
remaining moves on top of it. -/
theorem rootLoop_run {B : Type} (e : Engine B) (d : Nat) (b : B) :
    ∀ (ms : List UciMove) (alpha : XScore) (m0 : UciMove), alpha ≠ .posInf →
      ∃ m', rootLoop e d b ms alpha (some m0) alpha
        = some (m', fullLoopF e (fun b' => negamaxFull e d b') b ms alpha) := by
  intro ms
  induction ms with
  | nil =>
    intro alpha m0 _
    exact ⟨m0, rfl⟩
  | cons m rest ih =>
    intro alpha m0 halpha
    simp only [rootLoop, fullLoopF, Option.isNone_some, Bool.or_false,
      XScore.if_lt_eq_xmax]
    obtain ⟨hC1, hC2, hC3⟩ := @KMapprox_neg_child _ _ alpha .posInf
      (negamax_KM e d (e.push b m) .negInf alpha.neg
        (XScore.negInf_lt_iff.mpr (fun hc => halpha (XScore.neg_eq_negInf_iff.mp hc))))
    set s := (negamax e d (e.push b m) XScore.negInf alpha.neg).neg with hs
    set t := ((negamaxFull e d (e.push b m))).neg with ht
    by_cases hsp : s = XScore.posInf
    · have htp : t = XScore.posInf :=
        XScore.le_antisymm (XScore.le_posInf t)
          (hsp ▸ hC1 (by rw [hsp]; exact XScore.le_refl _))
      have hlt : alpha.lt s = true := by
        rw [hsp]; exact XScore.lt_posInf_iff.mpr halpha
      have hxs : alpha.xmax s = XScore.posInf := by
        rw [hsp]; exact XScore.xmax_eq_right (XScore.le_posInf alpha)
      have hxt : alpha.xmax t = XScore.posInf := by
        rw [htp]; exact XScore.xmax_eq_right (XScore.le_posInf alpha)
      simp only [hlt, if_true, hxs, hxt]
      refine ⟨m, ?_⟩
      rw [rootLoop_posInf, fullLoopF_posInf]
    · by_cases hlt : alpha.lt s = true
      · have hst : s = t := hC3 hlt (XScore.lt_posInf_iff.mpr hsp)
        have hxs : alpha.xmax s = s := XScore.xmax_eq_right (XScore.le_of_lt hlt)
        have hxt : alpha.xmax t = s := by rw [← hst]; exact hxs
        simp only [hlt, if_true, hxs, hxt]
        exact ih s m hsp
      · have hlf : alpha.lt s = false := by simpa using hlt
        have hsa : s.le alpha = true := XScore.le_of_not_lt hlt
        have hts : t.le alpha = true := XScore.le_trans (hC2 hsa) hsa
        have hxs : alpha.xmax s = alpha := XScore.xmax_eq_left hsa
        have hxt : alpha.xmax t = alpha := XScore.xmax_eq_left hts
        simp only [hlf, Bool.false_eq_true, if_false, hxs, hxt]
        exact ih alpha m0 halpha

/-- C1: alpha–beta pruning never changes the search result — for every
position and every depth ≥ 1 with at least one legal move, the score
`_find_best_move` returns equals the score of an unpruned full-width negamax
search of the same position to the same depth over the same move list. -/
theorem chessC1_alphabeta_equivalence {B : Type} (e : Engine B) (b : B)
    (depth : Nat) (hd : 1 ≤ depth) (hm : e.legalMoves b ≠ []) :
    ∃ m, findBestMove e b depth = some (m, fullRootScore e b depth) := by
  have hperm : (orderedMoves e b).Perm (e.legalMoves b) := List.mergeSort_perm _ _
  have homs : orderedMoves e b ≠ [] := by
    intro hc
    apply hm
    have hlen := hperm.length_eq
    rw [hc] at hlen
    exact List.eq_nil_of_length_eq_zero hlen.symm
  obtain ⟨m1, rest, hms⟩ := List.exists_cons_of_ne_nil homs
  unfold findBestMove fullRootScore
  rw [hms]
  simp only [rootLoop, fullLoopF, Option.isNone_none, Bool.or_true,
    eq_self_iff_true, ite_true, XScore.if_lt_eq_xmax]
  obtain ⟨hC1, hC2, hC3⟩ :=
    @KMapprox_neg_child _ _ XScore.negInf XScore.posInf
      (negamax_KM e (depth - 1) (e.push b m1) .negInf XScore.negInf.neg
        (by rw [show XScore.negInf.neg = XScore.posInf from rfl]
            exact XScore.negInf_lt_iff.mpr (by intro hc; cases hc)))
  set s := (negamax e (depth - 1) (e.push b m1) XScore.negInf XScore.negInf.neg).neg with hs
  set t := ((negamaxFull e (depth - 1) (e.push b m1))).neg with ht
  have hst : s = t := by
    by_cases h1 : s = XScore.posInf
    · have h2 := hC1 (by rw [h1]; exact XScore.le_refl _)
      have htp : t = XScore.posInf := XScore.le_antisymm (XScore.le_posInf t) (h1 ▸ h2)
      rw [h1, htp]
    · by_cases h2 : s = XScore.negInf
      · have h3 := hC2 (by rw [h2]; exact XScore.le_refl _)
        have htn : t = XScore.negInf := XScore.le_antisymm (h2 ▸ h3) (XScore.negInf_le t)
        rw [h2, htn]
      · exact hC3 (XScore.negInf_lt_iff.mpr h2) (XScore.lt_posInf_iff.mpr h1)
  have hnx : XScore.negInf.xmax s = s := XScore.xmax_eq_right (XScore.negInf_le s)
  have hnt : XScore.negInf.xmax t = t := XScore.xmax_eq_right (XScore.negInf_le t)
  rw [hnx, hnt]
  by_cases hsp : s = XScore.posInf
  · refine ⟨m1, ?_⟩
    rw [← hst, hsp, rootLoop_posInf, fullLoopF_posInf]
  · obtain ⟨m', hm'⟩ := rootLoop_run e (depth - 1) b rest s m1 hsp
    refine ⟨m', ?_⟩
    rw [← hst]
    exact hm'

/-- Witness for C1, at a toy board with two legal moves and depth 2. -/
theorem chessC1_alphabeta_equivalence_witness :
    1 ≤ 2 ∧ toyEngine.legalMoves 0 ≠ []
    ∧ ∃ m, findBestMove toyEngine 0 2 = some (m, fullRootScore toyEngine 0 2) :=
  ⟨by decide, by decide,
   chessC1_alphabeta_equivalence toyEngine 0 2 (by decide) (by decide)⟩

/-- The root loop returns a best move as soon as a provisional best exists or
any move remains, and the returned move comes from the processed list or the
provisional best. -/
theorem rootLoop_mem {B : Type} (e : Engine B) (d : Nat) (b : B) :
    ∀ (ms : List UciMove) (alpha : XScore) (bm : Option UciMove) (bs : XScore),
      (bm = none → ms ≠ []) →
      ∃ m s, rootLoop e d b ms alpha bm bs = some (m, s) ∧ (m ∈ ms ∨ bm = some m) := by
  intro ms
  induction ms with
  | nil =>
    intro alpha bm bs hbm
    cases bm with
    | none => exact absurd rfl (hbm rfl)
    | some m0 => exact ⟨m0, bs, rfl, Or.inr rfl⟩
  | cons m rest ih =>
    intro alpha bm bs hbm
    simp only [rootLoop]
    cases bm with
    | none =>
      simp only [Option.isNone_none, Bool.or_true, eq_self_iff_true, ite_true]
      obtain ⟨m', s', heq, hmem⟩ := ih _ (some m) _ (fun h => absurd h (by simp))
      refine ⟨m', s', heq, ?_⟩
      rcases hmem with h | h
      · exact Or.inl (List.mem_cons_of_mem _ h)
      · obtain rfl := Option.some.inj h
        exact Or.inl (List.mem_cons_self _ _)
    | some m0 =>
      simp only [Option.isNone_some, Bool.or_false]
      set s := (negamax e d (e.push b m) XScore.negInf alpha.neg).neg with hsdef
      by_cases hk : bs.lt s = true
      · simp only [hk, if_true]
        obtain ⟨m', s', heq, hmem⟩ := ih _ (some m) _ (fun h => absurd h (by simp))
        refine ⟨m', s', heq, ?_⟩
        rcases hmem with h | h
        · exact Or.inl (List.mem_cons_of_mem _ h)
        · obtain rfl := Option.some.inj h
          exact Or.inl (List.mem_cons_self _ _)
      · simp only [hk, Bool.false_eq_true, if_false]
        obtain ⟨m', s', heq, hmem⟩ := ih _ (some m0) _ (fun h => absurd h (by simp))
        refine ⟨m', s', heq, ?_⟩
        rcases hmem with h | h
        · exact Or.inl (List.mem_cons_of_mem _ h)
        · exact Or.inr h

/-- C7: on a position with zero legal moves, `select_move` fails with the
no-move condition on both the search branch and the beginner-heuristic
branch, for every configured difficulty profile and every randomness
outcome; conversely, on a position with at least one legal move,
`_find_best_move` always returns some legal move of that position. -/
theorem chessC7_no_legal_moves {B : Type} (e : Engine B) (b : B) :
    ((e.legalMoves b = []) →
      ∀ (label canon : String) (profile : DifficultyProfile),
        difficultyFromLabel label = some (canon, profile) →
        ∀ (lowDraw : Bool) (shuffled : List UciMove) (takeSafe : Bool),
          shuffled.Perm (e.legalMoves b) →
          selectMove e b label lowDraw shuffled takeSafe = .error .noMove)
    ∧ (e.legalMoves b ≠ [] → ∀ depth : Nat, 1 ≤ depth →
        ∃ m s, findBestMove e b depth = some (m, s) ∧ m ∈ e.legalMoves b) := by
  constructor
  · intro hempty label canon profile hlabel lowDraw shuffled takeSafe hperm
    have hord : orderedMoves e b = [] := by
      unfold orderedMoves
      rw [hempty]
      simp
    have hbest : ∀ dep : Nat, findBestMove e b dep = none := by
      intro dep
      unfold findBestMove
      rw [hord]
      rfl
    have hsh : shuffled = [] := by
      rw [hempty] at hperm
      exact List.eq_nil_of_length_eq_zero (by simpa using hperm.length_eq)
    unfold selectMove
    rw [hlabel]
    dsimp only
    by_cases hbr : ((canon == "explorer" || canon == "beginner") && lowDraw) = true
    · rw [if_pos hbr, hsh]
      have hcb : chooseBeginner e b [] takeSafe = none := by
        simp [chooseBeginner, chooseBeginnerS, maxBySnd]
      rw [hcb]
    · rw [if_neg hbr, hbest]
  · intro hm depth _
    have hperm2 : (orderedMoves e b).Perm (e.legalMoves b) := List.mergeSort_perm _ _
    have homs : orderedMoves e b ≠ [] := by
      intro hc
      apply hm
      have hlen := hperm2.length_eq
      rw [hc] at hlen
      exact List.eq_nil_of_length_eq_zero hlen.symm
    obtain ⟨m, s, heq, hmem⟩ :=
      rootLoop_mem e (depth - 1) b (orderedMoves e b) .negInf none .negInf (fun _ => homs)
    refine ⟨m, s, heq, ?_⟩
    rcases hmem with h | h
    · exact hperm2.mem_iff.mp h
    · exact Option.noConfusion h

/-- Witness for C7: the toy board 8 has no legal moves and `select_move`
fails on it (beginner branch shown); the toy board 0 has legal moves and the
search returns one of them. -/
theorem chessC7_no_legal_moves_witness :
    selectMove toyEngine 8 "beginner" true [] true = .error .noMove
    ∧ ∃ m s, findBestMove toyEngine 0 1 = some (m, s) ∧ m ∈ toyEngine.legalMoves 0 :=
  ⟨(chessC7_no_legal_moves toyEngine 8).1 (by decide) "beginner" "beginner" ⟨1, Rat.mk' 2 5⟩
      (by decide) true [] true (by rw [show toyEngine.legalMoves 8 = [] from rfl]),
   (chessC7_no_legal_moves toyEngine 0).2 (by decide) 1 (by decide)⟩

/-- C9: on a non-game-over position, a hint request without a difficulty
resolves to `advanced` (depth 3) when the full-move number exceeds 20 and to
`intermediate` (depth 2) otherwise, and for every valid difficulty label —
`explorer` and `beginner` included — the hint is obtained from
`_find_best_move` at depth `max(1, profile.depth)`, never from the beginner
heuristic. -/
theorem chessC9_hint_routing {B : Type} (e : Engine B) (b : B)
    (hgo : e.isGameOver b = false) :
    (hintCore e b none =
      (match findBestMove e b (if 20 < e.fullmoveNumber b then 3 else 2) with
       | none => .error .noMove
       | some ms => .ok ms))
    ∧ (∀ (s canon : String) (profile : DifficultyProfile),
        difficultyFromLabel s = some (canon, profile) →
        hintCore e b (some s) =
          (match findBestMove e b (max 1 profile.depth) with
           | none => .error .noMove
           | some ms => .ok ms)) := by
  constructor
  · unfold hintCore
    rw [hgo]
    simp only [Bool.false_eq_true, if_false]
    by_cases hfm : 20 < e.fullmoveNumber b
    · rw [if_pos hfm, if_pos hfm,
        show difficultyFromLabel "advanced" = some ("advanced", ⟨3, 0⟩) from by decide]
      rfl
    · rw [if_neg hfm, if_neg hfm,
        show difficultyFromLabel "intermediate" = some ("intermediate", ⟨2, Rat.mk' 1 10⟩)
          from by decide]
      rfl
  · intro s canon profile hlab
    unfold hintCore
    rw [hgo]
    simp only [Bool.false_eq_true, if_false]
    have hs : ¬ (s = "") := by
      intro hc
      rw [hc, show difficultyFromLabel "" = none from by decide] at hlab
      exact Option.noConfusion hlab
    rw [if_neg hs, hlab]

/-- Witness for C9, at the non-game-over toy board 0 (full-move number 1):
the defaulted hint and an explorer-label hint both route through
`_find_best_move`. -/
theorem chessC9_hint_routing_witness :
    (hintCore toyEngine 0 none =
      (match findBestMove toyEngine 0 (if 20 < toyEngine.fullmoveNumber 0 then 3 else 2) with
       | none => .error .noMove
       | some ms => .ok ms))
    ∧ (hintCore toyEngine 0 (some "explorer") =
      (match findBestMove toyEngine 0 (max 1 (1 : Nat)) with
       | none => .error .noMove
       | some ms => .ok ms)) :=
  ⟨(chessC9_hint_routing toyEngine 0 (by decide)).1,
   (chessC9_hint_routing toyEngine 0 (by decide)).2 "explorer" "explorer"
     ⟨1, Rat.mk' 3 5⟩ (by decide)⟩

/-- C10: when `apply_move` receives a 4-character coordinate move together
with a separate promotion field, the move is re-encoded as
from-square + to-square + promotion before the legality check — the endpoint
behaves exactly as if the 5-character promoted move string had been sent —
and when the move string already carries a promotion suffix the separate
promotion field is ignored. -/
theorem chessC10_promotion_reencode {B : Type} (e : Engine B) (b : B)
    (f1 r1 f2 r2 c c' : Char) (a1 b1 a2 b2 : Nat) (pc : PieceType)
    (hf1 : fileIndex f1 = some a1) (hr1 : rankIndex r1 = some b1)
    (hf2 : fileIndex f2 = some a2) (hr2 : rankIndex r2 = some b2)
    (hc : promoPiece c = some pc) :
    applyMoveE e b (String.mk [f1, r1, f2, r2]) (some c)
      = applyMoveE e b (String.mk [f1, r1, f2, r2, c]) none
    ∧ applyMoveE e b (String.mk [f1, r1, f2, r2, c]) (some c')
      = applyMoveE e b (String.mk [f1, r1, f2, r2, c]) none := by
  have hne1 : f1 ≠ '0' := by
    intro hq
    rw [hq, show fileIndex '0' = none from by decide] at hf1
    exact Option.noConfusion hf1
  have h04 : ¬ (String.mk [f1, r1, f2, r2] = "0000") := by
    intro hq
    have hdq : [f1, r1, f2, r2] = ['0', '0', '0', '0'] := by
      simpa using congrArg String.data hq
    injection hdq with h1 _
    exact hne1 h1
  have h05 : ¬ (String.mk [f1, r1, f2, r2, c] = "0000") := by
    intro hq
    have hdq : [f1, r1, f2, r2, c] = ['0', '0', '0', '0'] := by
      simpa using congrArg String.data hq
    have hlen := congrArg List.length hdq
    simp at hlen
  have hp4 : parseUci (String.mk [f1, r1, f2, r2]) =
      if b1 * 8 + a1 = b2 * 8 + a2 then none
      else some ⟨b1 * 8 + a1, b2 * 8 + a2, none⟩ := by
    unfold parseUci
    rw [if_neg h04]
    simp only [hf1, hr1, hf2, hr2]
  have hp5 : parseUci (String.mk [f1, r1, f2, r2, c]) =
      if b1 * 8 + a1 = b2 * 8 + a2 then none
      else some ⟨b1 * 8 + a1, b2 * 8 + a2, some pc⟩ := by
    unfold parseUci
    rw [if_neg h05]
    simp only [hf1, hr1, hf2, hr2, hc]
  have hpush : (String.mk ((String.mk [f1, r1, f2, r2]).data.take 4)).push c
      = String.mk [f1, r1, f2, r2, c] := rfl
  by_cases heq : b1 * 8 + a1 = b2 * 8 + a2
  · constructor
    · unfold applyMoveE
      rw [hp4, hp5, if_pos heq, if_pos heq]
    · unfold applyMoveE
      rw [hp5, if_pos heq]
  · constructor
    · unfold applyMoveE
      rw [hp4, hp5, if_neg heq, if_neg heq]
      dsimp only [Option.isNone_none]
      rw [if_pos rfl, hpush, hp5, if_neg heq]
    · unfold applyMoveE
      rw [hp5, if_neg heq]
      simp

/-- Witness for C10: the move "e7e8" with promotion field 'q' behaves exactly
like the move "e7e8q", and a promotion field on an already-promoted move
string is ignored. -/
theorem chessC10_promotion_reencode_witness :
    (applyMoveE toyEngine 0 (String.mk ['e', '7', 'e', '8']) (some 'q')
      = applyMoveE toyEngine 0 (String.mk ['e', '7', 'e', '8', 'q']) none)
    ∧ applyMoveE toyEngine 0 (String.mk ['e', '7', 'e', '8', 'q']) (some 'r')
      = applyMoveE toyEngine 0 (String.mk ['e', '7', 'e', '8', 'q']) none :=
  chessC10_promotion_reencode toyEngine 0 'e' '7' 'e' '8' 'q' 'r' 4 6 4 7 .queen
    (by decide) (by decide) (by decide) (by decide) (by decide)

/-- Witness for C4, at the non-terminal toy board 0. -/
theorem chessC4_nonterminal_eval_witness :
    evaluateBoard toyEngine 0 =
      if toyEngine.turn 0 then rawScore toyEngine 0 + mobilityBonusTerm toyEngine 0
      else - rawScore toyEngine 0 + mobilityBonusTerm toyEngine 0 :=
  chessC4_nonterminal_eval toyEngine 0 (by decide) (by decide) (by decide)
